import Mathlib

/-!
Verification of the minato cache resolution engine (`src/minato/minato.py`)
against its natural-language specification.

Paths, URLs and identifiers are modelled as lists of characters.  The
filesystem is a pair of characteristic functions (files and directories);
the metadata store is a map from URLs to records; the transport and
archive collaborators are oracles that may fail with an arbitrary error,
which also models external cancellation (SystemExit / KeyboardInterrupt)
arriving at the blocking collaborator calls.
-/

abbrev Str := List Char

/-- Error taxonomy from the spec (§7): `invalidReference` is the ValueError
raised for a bad `!` reference, `transport` a download failure, `extraction`
an archive failure, and `cancelled` models SystemExit / KeyboardInterrupt
raised inside a blocking collaborator call. -/
inductive Err where
  | invalidReference
  | transport
  | extraction
  | cancelled
deriving DecidableEq

/-- q is p itself or lies strictly inside the directory tree rooted at p. -/
def isUnder (p q : Str) : Bool := decide (p = q) || (p ++ ['/']).isPrefixOf q

/-- Filesystem state: characteristic functions of existing files and
existing directories. -/
structure FS where
  files : Str → Bool
  dirs : Str → Bool

def FS.existsPath (fs : FS) (p : Str) : Bool := fs.files p || fs.dirs p

def FS.isDir (fs : FS) (p : Str) : Bool := fs.dirs p

def FS.addFile (fs : FS) (p : Str) : FS :=
  { fs with files := fun q => decide (q = p) || fs.files q }

/-- Modelled from the spec: `util.remove_file_or_directory` (absent from
src/) deletes a file or a whole directory tree, tolerating already-missing
targets. -/
def FS.removeTree (fs : FS) (p : Str) : FS :=
  { files := fun q => fs.files q && !(isUnder p q)
  , dirs := fun q => fs.dirs q && !(isUnder p q) }

/-- Effect of a successful `extract_archive_file` call: the destination
directory exists and contains exactly the archive's member files. -/
def FS.withExtraction (fs : FS) (ep : Str) (contents : List Str) : FS :=
  { files := fun q => fs.files q || decide (q ∈ contents.map (fun f => ep ++ '/' :: f))
  , dirs := fun q => decide (q = ep) || fs.dirs q }

/-- The filesystem is tree-closed at p: when p itself does not exist,
nothing strictly inside p exists either (always true of a real filesystem). -/
def FS.treeClosed (fs : FS) (p : Str) : Prop :=
  fs.existsPath p = false → ∀ q, isUnder p q = true → fs.files q = false ∧ fs.dirs q = false

/-- One row of the metadata store (spec §3). -/
structure CachedFile where
  url : Str
  local_path : Str
  extraction_path : Option Str
  updated_at : Nat
deriving DecidableEq

/-- Modelled from the spec: `Cache` derives `local_path` as a pure,
collision-free function of the url under the artifact directory
(src/minato/cache.py is not in src/). -/
def localPathOf (url : Str) : Str := "cache/".toList ++ url

/-- Modelled from the spec: `util.is_archive_file` (absent from src/)
detects archives by signature/extension. -/
def is_archive_file (p : Str) : Bool :=
  [".zip".toList, ".tar.gz".toList, ".tgz".toList, ".tar".toList].any
    (fun suf => suf.isSuffixOf p)

/-- Modelled from the spec: `util.extract_path` (absent from src/)
normalizes a path by stripping leading path separators. -/
def extract_path (p : Str) : Str := p.dropWhile (fun c => c == '/')

/-- Modelled from the spec: `util.is_local` (absent from src/); §4.2 step 2
applies when the identifier denotes an existing local path, the denoted
path being its normalized form. -/
def is_local (fs : FS) (p : Str) : Bool := fs.existsPath (extract_path p)

/-- Modelled from the spec (§4.1): false when the expiration window is
unset, otherwise true iff now - updated_at >= expireDays. -/
def isExpired (expireDays : Option Nat) (now : Nat) (r : CachedFile) : Bool :=
  match expireDays with
  | none => false
  | some d => now - r.updated_at ≥ d

/-- Modelled from the spec: the metadata store is keyed by the unique url. -/
abbrev Cache := Str → Option CachedFile

/-- Modelled from the spec (§4.1): `add(url)` creates and persists a new
record with deterministic `local_path` and empty `extraction_path`. -/
def Cache.add (c : Cache) (url : Str) (now : Nat) : CachedFile × Cache :=
  let r : CachedFile := ⟨url, localPathOf url, none, now⟩
  (r, fun u => if u = url then some r else c u)

/-- Modelled from the spec (§4.1, §4.2 step d): `update(record)` persists
the mutated record and bumps `updated_at`. -/
def Cache.update (c : Cache) (r : CachedFile) (now : Nat) : Cache :=
  fun u => if u = r.url then some { r with updated_at := now } else c u

/-- Lines 87-90 of minato.py: look the record up by url, creating it if
absent. -/
def lookupOrAdd (c : Cache) (url : Str) (now : Nat) : CachedFile × Cache :=
  match c url with
  | some r => (r, c)
  | none => Cache.add c url now

/-- External collaborators and configuration.  `downloadResult url = none`
means the transport succeeds; `some e` injects failure e (transport error
or cancellation) at the blocking download call, and similarly for
`extractResult`.  `archiveContents` gives the member files materialized by
a successful extraction of a given archive path. -/
structure Env where
  downloadResult : Str → Option Err
  extractResult : Str → Option Err
  archiveContents : Str → List Str
  expireDays : Option Nat
  now : Nat

/-- Whole-system state: filesystem, metadata store, and counters of
transport download and archive extraction invocations. -/
structure Sys where
  fs : FS
  cache : Cache
  dls : Nat
  exs : Nat

/-- Line 94-98 of minato.py: the download condition. -/
def needsDownload (env : Env) (fs : FS) (cf : CachedFile) (force_download : Bool) : Bool :=
  !(fs.existsPath cf.local_path) || isExpired env.expireDays env.now cf || force_download

/-- Lines 93-100 of minato.py: conditionally invoke the transport. -/
def downloadPhase (env : Env) (s : Sys) (cf : CachedFile) (force_download : Bool) :
    Sys × Except Err Bool :=
  if needsDownload env s.fs cf force_download then
    let s1 : Sys := { s with dls := s.dls + 1 }
    match env.downloadResult cf.url with
    | some e => (s1, Except.error e)
    | none => ({ s1 with fs := s1.fs.addFile cf.local_path }, Except.ok true)
  else (s, Except.ok false)

/-- Line 103-107 of minato.py: the extraction condition, minus the archive
check. -/
def wantsExtraction (cf : CachedFile) (downloaded extract force_extract : Bool) : Bool :=
  (extract && cf.extraction_path.isNone) || (downloaded && cf.extraction_path.isSome)
    || force_extract

def extractedSuffix : Str := "-extracted".toList

/-- Lines 108-110 of minato.py: the deterministic extraction directory. -/
def extractTarget (cf : CachedFile) : Str := cf.local_path ++ extractedSuffix

/-- Lines 111-112 of minato.py: delete a pre-existing extraction directory. -/
def removeExisting (s : Sys) (ep : Str) : Sys :=
  if s.fs.existsPath ep then { s with fs := s.fs.removeTree ep } else s

/-- Lines 102-116 of minato.py: conditionally extract, deleting a
pre-existing extraction directory first. -/
def extractPhase (env : Env) (s : Sys) (cf : CachedFile)
    (downloaded extract force_extract : Bool) : Sys × CachedFile × Except Err Bool :=
  if wantsExtraction cf downloaded extract force_extract && is_archive_file cf.local_path then
    let ep := extractTarget cf
    let cf1 : CachedFile := { cf with extraction_path := some ep }
    let s2 : Sys := { removeExisting s ep with exs := (removeExisting s ep).exs + 1 }
    match env.extractResult cf1.local_path with
    | some e => (s2, cf1, Except.error e)
    | none =>
      ({ s2 with fs := s2.fs.withExtraction ep (env.archiveContents cf1.local_path) },
        cf1, Except.ok true)
  else (s, cf, Except.ok false)

/-- Lines 102-122 of minato.py: the part of the try block following the
download phase. -/
def finishBody (env : Env) (s1 : Sys) (cf : CachedFile) (downloaded extract fe : Bool) :
    Sys × CachedFile × Except Err Str :=
  match extractPhase env s1 cf downloaded extract fe with
  | (s2, cf2, Except.error e) => (s2, cf2, Except.error e)
  | (s2, cf2, Except.ok extracted) =>
    let s3 : Sys :=
      if downloaded || extracted then { s2 with cache := Cache.update s2.cache cf2 env.now }
      else s2
    if extract || fe then
      match cf2.extraction_path with
      | some ep => (s3, cf2, Except.ok ep)
      | none => (s3, cf2, Except.ok cf2.local_path)
    else (s3, cf2, Except.ok cf2.local_path)

/-- Lines 92-122 of minato.py: the body of the try block, returning the
possibly-mutated in-memory record alongside the outcome. -/
def tryBody (env : Env) (s : Sys) (cf : CachedFile) (extract fd fe : Bool) :
    Sys × CachedFile × Except Err Str :=
  match downloadPhase env s cf fd with
  | (s1, Except.error e) => (s1, cf, Except.error e)
  | (s1, Except.ok downloaded) => finishBody env s1 cf downloaded extract fe

/-- Lines 123-127 of minato.py: the except-clause cleanup, deleting the
artifact file and, when the record carries one, the extraction directory. -/
def rollbackFS (fs : FS) (cf : CachedFile) : FS :=
  match cf.extraction_path with
  | some ep => (fs.removeTree cf.local_path).removeTree ep
  | none => fs.removeTree cf.local_path

/-- Lines 85-129 of minato.py: the critical-section pipeline, with the
except-clause rollback of lines 123-127. -/
def pipeline (env : Env) (s : Sys) (url : Str) (extract fd fe : Bool) :
    Sys × Except Err Str :=
  let p := lookupOrAdd s.cache url env.now
  let s1 : Sys := { s with cache := p.2 }
  match tryBody env s1 p.1 extract fd fe with
  | (s2, _, Except.ok ret) => (s2, Except.ok ret)
  | (s2, cf2, Except.error e) => ({ s2 with fs := rollbackFS s2.fs cf2 }, Except.error e)

/-- Split a character list at the last occurrence of sep, as Python's
`str.rsplit(sep, 1)` on line 64 of minato.py; `none` when sep is absent. -/
def rsplitLast (sep : Char) : Str → Option (Str × Str)
  | [] => none
  | c :: rest =>
    match rsplitLast sep rest with
    | some (a, b) => some (c :: a, b)
    | none => if c = sep then some ([], rest) else none

/-- Line 80-81 of minato.py: normalize a local identifier before use. -/
def resolvedUrl (fs : FS) (ident : Str) : Str :=
  if is_local fs ident then extract_path ident else ident

/-- Fuel-indexed body of `Minato.cached_path` (lines 54-129 of minato.py);
the fuel only bounds the nested-archive recursion depth and is irrelevant
above the identifier's length. -/
def cachedPathGo : Nat → Env → Sys → Str → Bool → Bool → Bool → Sys × Except Err Str
  | 0, _, s, _, _, _, _ => (s, Except.error Err.invalidReference)
  | fuel + 1, env, s, ident, extract, fd, fe =>
    match rsplitLast '!' ident with
    | some (outer, inner) =>
      match cachedPathGo fuel env s outer true fd fe with
      | (s1, Except.error e) => (s1, Except.error e)
      | (s1, Except.ok archivePath) =>
        if s1.fs.isDir archivePath then
          (s1, Except.ok (archivePath ++ '/' :: extract_path inner))
        else (s1, Except.error Err.invalidReference)
    | none =>
      let ident1 := resolvedUrl s.fs ident
      if is_local s.fs ident && !extract && !(is_archive_file ident1) then
        (s, Except.ok ident1)
      else pipeline env s ident1 extract fd fe

/-- `Minato.cached_path`: the fuel `ident.length + 1` always suffices since
each `!`-recursion strictly shortens the identifier. -/
def cachedPath (env : Env) (s : Sys) (ident : Str) (extract fd fe : Bool) :
    Sys × Except Err Str :=
  cachedPathGo (ident.length + 1) env s ident extract fd fe

/-- Lines 40-43 of minato.py: `Minato.open` resolves through `cached_path`
exactly when this condition holds. -/
def minatoOpenUsesCache (mode : Str) (use_cache : Bool) : Bool :=
  !(mode.contains 'a' && mode.contains 'w' && mode.contains 'x' && mode.contains '+')
    && use_cache

/-- Keyword parameters accepted by `Minato.open` (minato.py lines 31-39). -/
def minatoOpenKeywordParams : List String :=
  ["mode", "extract", "use_cache", "force_download", "force_extract"]

/-- Keyword parameters accepted by `Minato.cached_path` (minato.py lines 54-60). -/
def minatoCachedPathKeywordParams : List String :=
  ["extract", "force_download", "force_extract"]

/-- Keyword arguments the module-level `open` forwards to `Minato.open`
(__init__.py lines 39-48). -/
def moduleOpenForwardedKeywords : List String :=
  ["mode", "extract", "auto_update", "use_cache", "force_download", "force_extract",
    "expire_days"]

/-- Keyword arguments the module-level `cached_path` forwards to
`Minato.cached_path` (__init__.py lines 66-74). -/
def moduleCachedPathForwardedKeywords : List String :=
  ["extract", "auto_update", "force_download", "force_extract", "expire_days", "retry"]

/-- Attributes defined on the `Minato` class (minato.py lines 17-153). -/
def minatoAttributes : List String :=
  ["cache", "open", "cached_path", "download", "upload", "remove"]

/-- A Python call raises TypeError before the body runs iff it passes a
keyword the callee does not accept. -/
def callRaisesTypeError (accepted passed : List String) : Bool :=
  passed.any (fun k => !(accepted.contains k))

/-- Well-formedness of the record a resolution will act on: a set
`extraction_path` implies the artifact is an archive, and a set
`extraction_path` either exists on disk or the artifact itself is missing
(so the pipeline will re-download and re-extract). -/
def recordWF (s : Sys) (url : Str) : Prop :=
  ∀ r, s.cache url = some r →
    (r.extraction_path.isSome = true → is_archive_file r.local_path = true)
    ∧ (∀ x, r.extraction_path = some x →
        s.fs.existsPath x = true ∨ s.fs.existsPath r.local_path = false)

/-- Empty filesystem fixture for concrete runs. -/
def emptyFS : FS := ⟨fun _ => false, fun _ => false⟩

/-- Empty system state fixture for concrete runs. -/
def emptySys : Sys := ⟨emptyFS, fun _ => none, 0, 0⟩

/-- Fixture: every collaborator call succeeds, no expiration window. -/
def okEnv : Env := ⟨fun _ => none, fun _ => none, fun _ => [], none, 0⟩

/-- Fixture: the transport call is interrupted by a cancellation signal. -/
def cancelEnv : Env := ⟨fun _ => some Err.cancelled, fun _ => none, fun _ => [], none, 0⟩

/-- Fixture: every transport call fails with a transport error. -/
def dlFailEnv : Env := ⟨fun _ => some Err.transport, fun _ => none, fun _ => [], none, 0⟩

/-- Fixture: downloads succeed, extraction of any archive fails. -/
def exFailEnv : Env := ⟨fun _ => none, fun _ => some Err.extraction, fun _ => [], none, 9⟩

/-- Fixture: downloads and extractions succeed, archives hold one member. -/
def zipEnv : Env :=
  ⟨fun _ => none, fun _ => none, fun _ => ["data.txt".toList], none, 3⟩

def c1Url : Str := "http://h/a.txt".toList

def c2Url : Str := "http://h/b.txt".toList

def c3Url : Str := "http://h/c.zip".toList

def c4Url : Str := "http://h/d.txt".toList

/-- The record Cache.add persists for c4Url at time 0. -/
def c4Rec : CachedFile := ⟨c4Url, localPathOf c4Url, none, 0⟩

def c8Url : Str := "http://h/f.txt".toList

def c10Url : Str := "http://h/g.zip".toList

/-- A record for c10Url whose artifact is already on disk. -/
def c10Rec : CachedFile := ⟨c10Url, localPathOf c10Url, none, 7⟩

/-- System state holding c10Rec with its artifact present on disk. -/
def c10Sys : Sys :=
  ⟨⟨fun q => decide (q = localPathOf c10Url), fun _ => false⟩,
   fun u => if u = c10Url then some c10Rec else none, 0, 0⟩

/-- Local archive fixture: the file a.zip exists in the working directory. -/
def zipFS : FS := ⟨fun q => decide (q = "a.zip".toList), fun _ => false⟩

/-- System state for resolving the local archive a.zip. -/
def zipSys : Sys := ⟨zipFS, fun _ => none, 0, 0⟩

/-- A nested reference into a.zip naming a member the archive lacks. -/
def c7Ident : Str := "a.zip!missing.txt".toList

/-- A nested reference into a.zip naming its one member. -/
def c6Ident : Str := "a.zip!data.txt".toList

theorem isUnder_self (p : Str) : isUnder p p = true := by
  simp [isUnder]

theorem isUnder_length {p q : Str} (h : isUnder p q = true) : p.length ≤ q.length := by
  simp only [isUnder, Bool.or_eq_true, decide_eq_true_eq, List.isPrefixOf_iff_prefix] at h
  rcases h with h | h
  · exact h ▸ Nat.le_refl _
  · have hle := h.length_le
    simp only [List.length_append, List.length_cons, List.length_nil] at hle
    omega

theorem isUnder_append_right {p t : Str} (ht : t ≠ []) : isUnder (p ++ t) p = false := by
  apply Bool.eq_false_iff.mpr
  intro h
  have hle := isUnder_length h
  simp only [List.length_append] at hle
  have hz : t.length = 0 := by omega
  exact ht (List.length_eq_zero.mp hz)

theorem removeTree_existsPath (fs : FS) (p q : Str) :
    (fs.removeTree p).existsPath q = (fs.existsPath q && !(isUnder p q)) := by
  simp only [FS.removeTree, FS.existsPath]
  cases fs.files q <;> cases fs.dirs q <;> cases isUnder p q <;> rfl

theorem removeTree_existsPath_self (fs : FS) (p : Str) :
    (fs.removeTree p).existsPath p = false := by
  rw [removeTree_existsPath, isUnder_self]
  simp

theorem removeTree_existsPath_false {fs : FS} {q : Str} (p : Str)
    (h : fs.existsPath q = false) : (fs.removeTree p).existsPath q = false := by
  rw [removeTree_existsPath, h]
  rfl

theorem removeTree_existsPath_of_not_under {fs : FS} {p q : Str}
    (h : isUnder p q = false) : (fs.removeTree p).existsPath q = fs.existsPath q := by
  rw [removeTree_existsPath, h]
  simp

theorem addFile_existsPath (fs : FS) (p q : Str) :
    (fs.addFile p).existsPath q = (decide (q = p) || fs.existsPath q) := by
  simp only [FS.addFile, FS.existsPath]
  cases decide (q = p) <;> cases fs.files q <;> cases fs.dirs q <;> rfl

theorem addFile_existsPath_self (fs : FS) (p : Str) :
    (fs.addFile p).existsPath p = true := by
  rw [addFile_existsPath]
  simp

theorem withExtraction_existsPath_self (fs : FS) (ep : Str) (cs : List Str) :
    (fs.withExtraction ep cs).existsPath ep = true := by
  simp [FS.withExtraction, FS.existsPath]

theorem withExtraction_existsPath_mono {fs : FS} {q : Str} (ep : Str) (cs : List Str)
    (h : fs.existsPath q = true) : (fs.withExtraction ep cs).existsPath q = true := by
  simp only [FS.withExtraction, FS.existsPath, Bool.or_eq_true] at h ⊢
  rcases h with h | h
  · exact Or.inl (Or.inl h)
  · exact Or.inr (Or.inr h)

theorem extract_path_length (p : Str) : (extract_path p).length ≤ p.length :=
  (List.dropWhile_sublist _).length_le

theorem localPathOf_length (u : Str) : u.length < (localPathOf u).length := by
  show u.length < ("cache/".toList ++ u).length
  rw [List.length_append]
  have h6 : ("cache/".toList).length = 6 := rfl
  omega

theorem extractedSuffix_ne_nil : extractedSuffix ≠ [] := by
  intro h
  exact absurd (congrArg List.length h) (by decide)

theorem rsplitLast_length {sep : Char} {s a b : Str} (h : rsplitLast sep s = some (a, b)) :
    a.length < s.length := by
  induction s generalizing a b with
  | nil => simp [rsplitLast] at h
  | cons c rest ih =>
    simp only [rsplitLast] at h
    cases hr : rsplitLast sep rest with
    | some ab =>
      obtain ⟨a', b'⟩ := ab
      rw [hr] at h
      simp only [Option.some.injEq, Prod.mk.injEq] at h
      obtain ⟨ha, hb⟩ := h
      subst ha
      have := ih hr
      simp only [List.length_cons]
      omega
    | none =>
      rw [hr] at h
      by_cases hc : c = sep
      · rw [if_pos hc] at h
        injection h with h
        injection h with ha hb
        subst ha
        simp
      · simp [hc] at h

theorem rsplitLast_eq_none {sep : Char} {s : Str} (h : rsplitLast sep s = none) : sep ∉ s := by
  induction s with
  | nil => simp
  | cons c rest ih =>
    simp only [rsplitLast] at h
    cases hr : rsplitLast sep rest with
    | some ab => rw [hr] at h; cases h
    | none =>
      rw [hr] at h
      by_cases hc : c = sep
      · rw [if_pos hc] at h; cases h
      · intro hmem
        rcases List.mem_cons.mp hmem with h1 | h1
        · exact hc h1.symm
        · exact ih hr h1

theorem rsplitLast_decomp {sep : Char} {s a b : Str} (h : rsplitLast sep s = some (a, b)) :
    s = a ++ sep :: b ∧ sep ∉ b := by
  induction s generalizing a b with
  | nil => simp [rsplitLast] at h
  | cons c rest ih =>
    simp only [rsplitLast] at h
    cases hr : rsplitLast sep rest with
    | some ab =>
      obtain ⟨a', b'⟩ := ab
      rw [hr] at h
      simp only [Option.some.injEq, Prod.mk.injEq] at h
      obtain ⟨ha, hb⟩ := h
      subst ha
      subst hb
      obtain ⟨hd, hm⟩ := ih hr
      exact ⟨by rw [List.cons_append, ← hd], hm⟩
    | none =>
      rw [hr] at h
      by_cases hc : c = sep
      · rw [if_pos hc] at h
        injection h with h
        injection h with ha hb
        subst ha
        subst hb
        exact ⟨by rw [hc]; rfl, rsplitLast_eq_none hr⟩
      · simp [hc] at h

theorem rsplitLast_isSome {sep : Char} {s : Str} (h : sep ∈ s) :
    ∃ a b, rsplitLast sep s = some (a, b) := by
  induction s with
  | nil => cases h
  | cons c rest ih =>
    cases hr : rsplitLast sep rest with
    | some ab =>
      obtain ⟨a', b'⟩ := ab
      exact ⟨c :: a', b', by simp only [rsplitLast, hr]⟩
    | none =>
      have hc : c = sep := by
        rcases List.mem_cons.mp h with h1 | h1
        · exact h1.symm
        · exact absurd h1 (rsplitLast_eq_none hr)
      exact ⟨[], rest, by simp only [rsplitLast, hr, if_pos hc]⟩

theorem cachedPathGo_irrel : ∀ (f : Nat) (ident : Str), ident.length < f →
    ∀ (env : Env) (s : Sys) (e fd fe : Bool),
    cachedPathGo f env s ident e fd fe = cachedPath env s ident e fd fe := by
  intro f
  induction f using Nat.strong_induction_on with
  | _ f ih =>
    intro ident hf env s e fd fe
    cases f with
    | zero => omega
    | succ f =>
      show cachedPathGo (f + 1) env s ident e fd fe
          = cachedPathGo (ident.length + 1) env s ident e fd fe
      simp only [cachedPathGo]
      cases hsplit : rsplitLast '!' ident with
      | none => rfl
      | some ab =>
        obtain ⟨outer, inner⟩ := ab
        have hlt : outer.length < ident.length := rsplitLast_length hsplit
        have h1 : cachedPathGo f env s outer true fd fe = cachedPath env s outer true fd fe :=
          ih f (Nat.lt_succ_self f) outer (by omega) env s true fd fe
        have h2 : cachedPathGo ident.length env s outer true fd fe
            = cachedPath env s outer true fd fe :=
          ih ident.length hf outer hlt env s true fd fe
        simp only [h1, h2]

theorem cachedPath_bang {env : Env} {s : Sys} {ident : Str} {e fd fe : Bool}
    {outer inner : Str} (hsplit : rsplitLast '!' ident = some (outer, inner)) :
    cachedPath env s ident e fd fe =
      match cachedPath env s outer true fd fe with
      | (s1, Except.error er) => (s1, Except.error er)
      | (s1, Except.ok p) =>
        if s1.fs.isDir p then (s1, Except.ok (p ++ '/' :: extract_path inner))
        else (s1, Except.error Err.invalidReference) := by
  have hlt : outer.length < ident.length := rsplitLast_length hsplit
  show cachedPathGo (ident.length + 1) env s ident e fd fe = _
  simp only [cachedPathGo, hsplit]
  rw [cachedPathGo_irrel ident.length outer hlt env s true fd fe]

theorem cachedPath_nobang {env : Env} {s : Sys} {ident : Str} {e fd fe : Bool}
    (h : rsplitLast '!' ident = none) :
    cachedPath env s ident e fd fe =
      if is_local s.fs ident && !e && !(is_archive_file (resolvedUrl s.fs ident)) then
        (s, Except.ok (resolvedUrl s.fs ident))
      else pipeline env s (resolvedUrl s.fs ident) e fd fe := by
  show cachedPathGo (ident.length + 1) env s ident e fd fe = _
  simp only [cachedPathGo, h]

theorem lookupOrAdd_found {c : Cache} {url : Str} {now : Nat} {r : CachedFile}
    (h : c url = some r) : lookupOrAdd c url now = (r, c) := by
  simp [lookupOrAdd, h]

theorem lookupOrAdd_fresh {c : Cache} {url : Str} {now : Nat} (h : c url = none) :
    lookupOrAdd c url now
      = (⟨url, localPathOf url, none, now⟩,
         fun u => if u = url then some ⟨url, localPathOf url, none, now⟩ else c u) := by
  simp [lookupOrAdd, h, Cache.add]

theorem downloadPhase_no {env : Env} {s : Sys} {cf : CachedFile} {fd : Bool}
    (h : needsDownload env s.fs cf fd = false) :
    downloadPhase env s cf fd = (s, Except.ok false) := by
  simp [downloadPhase, h]

theorem downloadPhase_err {env : Env} {s : Sys} {cf : CachedFile} {fd : Bool} {er : Err}
    (h : needsDownload env s.fs cf fd = true) (hres : env.downloadResult cf.url = some er) :
    downloadPhase env s cf fd = ({ s with dls := s.dls + 1 }, Except.error er) := by
  simp [downloadPhase, h, hres]

theorem downloadPhase_ok {env : Env} {s : Sys} {cf : CachedFile} {fd : Bool}
    (h : needsDownload env s.fs cf fd = true) (hres : env.downloadResult cf.url = none) :
    downloadPhase env s cf fd
      = ({ s with fs := s.fs.addFile cf.local_path, dls := s.dls + 1 }, Except.ok true) := by
  simp [downloadPhase, h, hres]

theorem extractPhase_no {env : Env} {s : Sys} {cf : CachedFile} {d e fe : Bool}
    (h : (wantsExtraction cf d e fe && is_archive_file cf.local_path) = false) :
    extractPhase env s cf d e fe = (s, cf, Except.ok false) := by
  simp [extractPhase, h]

theorem extractPhase_err {env : Env} {s : Sys} {cf : CachedFile} {d e fe : Bool} {er : Err}
    (h : (wantsExtraction cf d e fe && is_archive_file cf.local_path) = true)
    (hres : env.extractResult cf.local_path = some er) :
    extractPhase env s cf d e fe
      = ({ removeExisting s (extractTarget cf) with
            exs := (removeExisting s (extractTarget cf)).exs + 1 },
         { cf with extraction_path := some (extractTarget cf) }, Except.error er) := by
  simp [extractPhase, h, hres]

theorem extractPhase_ok {env : Env} {s : Sys} {cf : CachedFile} {d e fe : Bool}
    (h : (wantsExtraction cf d e fe && is_archive_file cf.local_path) = true)
    (hres : env.extractResult cf.local_path = none) :
    extractPhase env s cf d e fe
      = ({ removeExisting s (extractTarget cf) with
            exs := (removeExisting s (extractTarget cf)).exs + 1
            fs := ((removeExisting s (extractTarget cf)).fs.withExtraction (extractTarget cf)
              (env.archiveContents cf.local_path)) },
         { cf with extraction_path := some (extractTarget cf) }, Except.ok true) := by
  simp [extractPhase, h, hres]

theorem removeExisting_cache (s : Sys) (ep : Str) : (removeExisting s ep).cache = s.cache := by
  unfold removeExisting
  split <;> rfl

theorem removeExisting_dls (s : Sys) (ep : Str) : (removeExisting s ep).dls = s.dls := by
  unfold removeExisting
  split <;> rfl

theorem removeExisting_exs (s : Sys) (ep : Str) : (removeExisting s ep).exs = s.exs := by
  unfold removeExisting
  split <;> rfl

theorem rollbackFS_local (fs : FS) (cf : CachedFile) :
    (rollbackFS fs cf).existsPath cf.local_path = false := by
  unfold rollbackFS
  cases cf.extraction_path with
  | none => exact removeTree_existsPath_self _ _
  | some ep => exact removeTree_existsPath_false _ (removeTree_existsPath_self _ _)

theorem rollbackFS_ep {fs : FS} {cf : CachedFile} {ep : Str} (h : cf.extraction_path = some ep) :
    (rollbackFS fs cf).existsPath ep = false := by
  unfold rollbackFS
  rw [h]
  exact removeTree_existsPath_self _ _

theorem pipeline_eq (env : Env) (s : Sys) (url : Str) (e fd fe : Bool) :
    pipeline env s url e fd fe =
      match tryBody env { s with cache := (lookupOrAdd s.cache url env.now).2 }
          (lookupOrAdd s.cache url env.now).1 e fd fe with
      | (s2, _, Except.ok ret) => (s2, Except.ok ret)
      | (s2, cf2, Except.error er) => ({ s2 with fs := rollbackFS s2.fs cf2 }, Except.error er)
    := rfl

theorem tryBody_dl_err {env : Env} {s : Sys} {cf : CachedFile} {e fd fe : Bool} {er : Err}
    (h : needsDownload env s.fs cf fd = true) (hres : env.downloadResult cf.url = some er) :
    tryBody env s cf e fd fe = ({ s with dls := s.dls + 1 }, cf, Except.error er) := by
  unfold tryBody
  rw [downloadPhase_err h hres]

theorem tryBody_dl_ok {env : Env} {s : Sys} {cf : CachedFile} {e fd fe : Bool}
    (h : needsDownload env s.fs cf fd = true) (hres : env.downloadResult cf.url = none) :
    tryBody env s cf e fd fe
      = finishBody env { s with fs := s.fs.addFile cf.local_path, dls := s.dls + 1 }
          cf true e fe := by
  unfold tryBody
  rw [downloadPhase_ok h hres]

theorem tryBody_dl_no {env : Env} {s : Sys} {cf : CachedFile} {e fd fe : Bool}
    (h : needsDownload env s.fs cf fd = false) :
    tryBody env s cf e fd fe = finishBody env s cf false e fe := by
  unfold tryBody
  rw [downloadPhase_no h]

theorem extractPhase_dls (env : Env) (t : Sys) (cf : CachedFile) (d e fe : Bool) :
    ((extractPhase env t cf d e fe).1).dls = t.dls := by
  by_cases h : (wantsExtraction cf d e fe && is_archive_file cf.local_path) = true
  · cases hres : env.extractResult cf.local_path with
    | some er => rw [extractPhase_err h hres]; exact removeExisting_dls t _
    | none => rw [extractPhase_ok h hres]; exact removeExisting_dls t _
  · rw [extractPhase_no (Bool.eq_false_iff.mpr h)]

theorem extractPhase_cache (env : Env) (t : Sys) (cf : CachedFile) (d e fe : Bool) :
    ((extractPhase env t cf d e fe).1).cache = t.cache := by
  by_cases h : (wantsExtraction cf d e fe && is_archive_file cf.local_path) = true
  · cases hres : env.extractResult cf.local_path with
    | some er => rw [extractPhase_err h hres]; exact removeExisting_cache t _
    | none => rw [extractPhase_ok h hres]; exact removeExisting_cache t _
  · rw [extractPhase_no (Bool.eq_false_iff.mpr h)]

theorem extractPhase_exs (env : Env) (t : Sys) (cf : CachedFile) (d e fe : Bool) :
    ((extractPhase env t cf d e fe).1).exs
      = t.exs + (if wantsExtraction cf d e fe && is_archive_file cf.local_path then 1 else 0) := by
  by_cases h : (wantsExtraction cf d e fe && is_archive_file cf.local_path) = true
  · cases hres : env.extractResult cf.local_path with
    | some er =>
      rw [extractPhase_err h hres, h]
      simp [removeExisting_exs]
    | none =>
      rw [extractPhase_ok h hres, h]
      simp [removeExisting_exs]
  · rw [extractPhase_no (Bool.eq_false_iff.mpr h), Bool.eq_false_iff.mpr h]
    simp

theorem finishBody_dls (env : Env) (t : Sys) (cf : CachedFile) (d e fe : Bool) :
    ((finishBody env t cf d e fe).1).dls = t.dls := by
  unfold finishBody
  rcases hE : extractPhase env t cf d e fe with ⟨s2, cf2, r⟩
  have h2 : s2.dls = t.dls := by
    have h3 := extractPhase_dls env t cf d e fe
    rw [hE] at h3
    exact h3
  cases r with
  | error er => exact h2
  | ok extracted =>
    cases hd : (d || extracted) <;> cases hef : (e || fe) <;>
      cases hep : cf2.extraction_path <;> simp [hd, hef, hep] <;> exact h2

theorem finishBody_exs (env : Env) (t : Sys) (cf : CachedFile) (d e fe : Bool) :
    ((finishBody env t cf d e fe).1).exs
      = t.exs + (if wantsExtraction cf d e fe && is_archive_file cf.local_path then 1 else 0) := by
  unfold finishBody
  rcases hE : extractPhase env t cf d e fe with ⟨s2, cf2, r⟩
  have h2 : s2.exs
      = t.exs + (if wantsExtraction cf d e fe && is_archive_file cf.local_path then 1 else 0) := by
    have h3 := extractPhase_exs env t cf d e fe
    rw [hE] at h3
    exact h3
  cases r with
  | error er => exact h2
  | ok extracted =>
    cases hd : (d || extracted) <;> cases hef : (e || fe) <;>
      cases hep : cf2.extraction_path <;> simp [hd, hef, hep, h2]

theorem pipeline_fst_dls (env : Env) (s : Sys) (url : Str) (e fd fe : Bool) :
    ((pipeline env s url e fd fe).1).dls
      = ((tryBody env { s with cache := (lookupOrAdd s.cache url env.now).2 }
          (lookupOrAdd s.cache url env.now).1 e fd fe).1).dls := by
  rw [pipeline_eq]
  rcases hT : tryBody env { s with cache := (lookupOrAdd s.cache url env.now).2 }
      (lookupOrAdd s.cache url env.now).1 e fd fe with ⟨s2, cf2, r⟩
  cases r <;> rfl

theorem pipeline_fst_exs (env : Env) (s : Sys) (url : Str) (e fd fe : Bool) :
    ((pipeline env s url e fd fe).1).exs
      = ((tryBody env { s with cache := (lookupOrAdd s.cache url env.now).2 }
          (lookupOrAdd s.cache url env.now).1 e fd fe).1).exs := by
  rw [pipeline_eq]
  rcases hT : tryBody env { s with cache := (lookupOrAdd s.cache url env.now).2 }
      (lookupOrAdd s.cache url env.now).1 e fd fe with ⟨s2, cf2, r⟩
  cases r <;> rfl

theorem pipeline_fst_cache (env : Env) (s : Sys) (url : Str) (e fd fe : Bool) :
    ((pipeline env s url e fd fe).1).cache
      = ((tryBody env { s with cache := (lookupOrAdd s.cache url env.now).2 }
          (lookupOrAdd s.cache url env.now).1 e fd fe).1).cache := by
  rw [pipeline_eq]
  rcases hT : tryBody env { s with cache := (lookupOrAdd s.cache url env.now).2 }
      (lookupOrAdd s.cache url env.now).1 e fd fe with ⟨s2, cf2, r⟩
  cases r <;> rfl

theorem pipeline_dls (env : Env) (s : Sys) (url : Str) (e fd fe : Bool) :
    ((pipeline env s url e fd fe).1).dls
      = s.dls
        + (if needsDownload env s.fs (lookupOrAdd s.cache url env.now).1 fd then 1 else 0) := by
  rw [pipeline_fst_dls]
  set s1 : Sys := { s with cache := (lookupOrAdd s.cache url env.now).2 } with hs1
  by_cases h : needsDownload env s.fs (lookupOrAdd s.cache url env.now).1 fd = true
  · cases hres : env.downloadResult (lookupOrAdd s.cache url env.now).1.url with
    | some er =>
      rw [tryBody_dl_err (show needsDownload env s1.fs _ fd = true from h) hres, h]
      simp
    | none =>
      rw [tryBody_dl_ok (show needsDownload env s1.fs _ fd = true from h) hres,
        finishBody_dls, h]
      simp
  · rw [tryBody_dl_no
        (show needsDownload env s1.fs _ fd = false from Bool.eq_false_iff.mpr h),
      finishBody_dls, Bool.eq_false_iff.mpr h]
    simp

theorem isUnder_extractTarget_local (cf : CachedFile) :
    isUnder (extractTarget cf) cf.local_path = false :=
  isUnder_append_right extractedSuffix_ne_nil

theorem extractTarget_ne_local (cf : CachedFile) : extractTarget cf ≠ cf.local_path := by
  intro h
  have hlen := congrArg List.length h
  rw [extractTarget, List.length_append] at hlen
  have hs : extractedSuffix.length = 10 := rfl
  omega

theorem extractPhase_snd_url (env : Env) (t : Sys) (cf : CachedFile) (d e fe : Bool) :
    ((extractPhase env t cf d e fe).2.1).url = cf.url := by
  by_cases h : (wantsExtraction cf d e fe && is_archive_file cf.local_path) = true
  · cases hres : env.extractResult cf.local_path with
    | some er => rw [extractPhase_err h hres]
    | none => rw [extractPhase_ok h hres]
  · rw [extractPhase_no (Bool.eq_false_iff.mpr h)]

theorem extractPhase_snd_local (env : Env) (t : Sys) (cf : CachedFile) (d e fe : Bool) :
    ((extractPhase env t cf d e fe).2.1).local_path = cf.local_path := by
  by_cases h : (wantsExtraction cf d e fe && is_archive_file cf.local_path) = true
  · cases hres : env.extractResult cf.local_path with
    | some er => rw [extractPhase_err h hres]
    | none => rw [extractPhase_ok h hres]
  · rw [extractPhase_no (Bool.eq_false_iff.mpr h)]

theorem withExtraction_removeExisting_preserves {t : Sys} {ep q : Str} {cs : List Str}
    (hq : isUnder ep q = false) (h : t.fs.existsPath q = true) :
    ((removeExisting t ep).fs.withExtraction ep cs).existsPath q = true := by
  apply withExtraction_existsPath_mono
  unfold removeExisting
  by_cases hex : t.fs.existsPath ep = true
  · rw [if_pos hex]
    show ((t.fs.removeTree ep)).existsPath q = true
    rw [removeTree_existsPath_of_not_under hq]
    exact h
  · rw [if_neg hex]
    exact h

theorem extractedFiles_fresh {t : Sys} {ep : Str} {cs : List Str}
    (htc : FS.treeClosed t.fs ep) :
    ∀ q, isUnder ep q = true → q ≠ ep →
      ((removeExisting t ep).fs.withExtraction ep cs).files q
        = decide (q ∈ cs.map (fun f => ep ++ '/' :: f)) := by
  intro q hq hne
  unfold removeExisting
  by_cases hex : t.fs.existsPath ep = true
  · rw [if_pos hex]
    show ((t.fs.removeTree ep).files q || _) = _
    have hrm : (t.fs.removeTree ep).files q = false := by
      show (t.fs.files q && !(isUnder ep q)) = false
      rw [hq]
      simp
    rw [hrm]
    simp
  · rw [if_neg hex]
    show (t.fs.files q || _) = _
    have hcl := htc (Bool.eq_false_iff.mpr hex) q hq
    rw [hcl.1]
    simp

theorem finishBody_ok_dl_cache {env : Env} {t : Sys} {cf : CachedFile} {e fe : Bool}
    {s' : Sys} {cf2 : CachedFile} {ret : Str}
    (h : finishBody env t cf true e fe = (s', cf2, Except.ok ret)) :
    s'.cache = Cache.update t.cache cf2 env.now ∧ cf2.url = cf.url := by
  unfold finishBody at h
  rcases hE : extractPhase env t cf true e fe with ⟨s2, cf2', rE⟩
  rw [hE] at h
  have hc : s2.cache = t.cache := by
    have h3 := extractPhase_cache env t cf true e fe
    rw [hE] at h3
    exact h3
  have hu : cf2'.url = cf.url := by
    have h3 := extractPhase_snd_url env t cf true e fe
    rw [hE] at h3
    exact h3
  cases rE with
  | error er => exact absurd h (by simp)
  | ok extracted =>
    dsimp only [] at h
    rw [Bool.true_or, if_pos rfl] at h
    have hfin : ∀ X : Str,
        (({ s2 with cache := Cache.update s2.cache cf2' env.now }, cf2', Except.ok X)
            : Sys × CachedFile × Except Err Str)
          = (s', cf2, Except.ok ret) →
        s'.cache = Cache.update t.cache cf2 env.now ∧ cf2.url = cf.url := by
      intro X hX
      obtain ⟨h1, h2, h3⟩ : ({ s2 with cache := Cache.update s2.cache cf2' env.now } : Sys) = s'
          ∧ cf2' = cf2 ∧ X = ret := by
        simpa using hX
      constructor
      · rw [← h1]
        show Cache.update s2.cache cf2' env.now = Cache.update t.cache cf2 env.now
        rw [hc, h2]
      · rw [← h2]
        exact hu
    split at h
    · split at h
      · exact hfin _ h
      · exact hfin _ h
    · exact hfin _ h

/-- C1: any failure raised inside the pipeline between record
lookup/creation and record update — a transport error, an extraction
error, or an external cancellation (SystemExit / KeyboardInterrupt)
injected at a blocking collaborator call — makes the resolver delete the
artifact file at the record's local_path, delete the extraction directory
carried by the (possibly mutated) record when present, and propagate
exactly the original error, leaving the metadata and counters as the
failing body left them. -/
theorem c1_failure_rollback (env : Env) (s : Sys) (url : Str) (e fd fe : Bool)
    (s' : Sys) (er : Err) (h : pipeline env s url e fd fe = (s', Except.error er)) :
    ∃ s2 cf2,
      tryBody env { s with cache := (lookupOrAdd s.cache url env.now).2 }
          (lookupOrAdd s.cache url env.now).1 e fd fe = (s2, cf2, Except.error er)
      ∧ s'.fs.existsPath cf2.local_path = false
      ∧ (∀ ep, cf2.extraction_path = some ep → s'.fs.existsPath ep = false)
      ∧ s'.cache = s2.cache ∧ s'.dls = s2.dls ∧ s'.exs = s2.exs := by
  rw [pipeline_eq] at h
  rcases hT : tryBody env { s with cache := (lookupOrAdd s.cache url env.now).2 }
      (lookupOrAdd s.cache url env.now).1 e fd fe with ⟨s2, cf2, r⟩
  rw [hT] at h
  cases r with
  | ok ret => exact absurd h (by simp)
  | error er2 =>
    obtain ⟨h1, h2⟩ : ({ s2 with fs := rollbackFS s2.fs cf2 } : Sys) = s' ∧ er2 = er := by
      simpa using h
    subst h2
    refine ⟨s2, cf2, rfl, ?_, ?_, ?_, ?_, ?_⟩
    · rw [← h1]
      exact rollbackFS_local s2.fs cf2
    · intro ep hep
      rw [← h1]
      exact rollbackFS_ep hep
    · rw [← h1]
    · rw [← h1]
    · rw [← h1]

/-- Witness for c1_failure_rollback: a cancellation signal injected at the
download call on a fresh URL is cleaned up after and re-raised unchanged. -/
theorem c1_failure_rollback_witness :
    ∃ s2 cf2,
      tryBody cancelEnv
          { emptySys with cache := (lookupOrAdd emptySys.cache c1Url cancelEnv.now).2 }
          (lookupOrAdd emptySys.cache c1Url cancelEnv.now).1 false false false
        = (s2, cf2, Except.error Err.cancelled)
      ∧ ((pipeline cancelEnv emptySys c1Url false false false).1).fs.existsPath
          cf2.local_path = false
      ∧ (∀ ep, cf2.extraction_path = some ep →
          ((pipeline cancelEnv emptySys c1Url false false false).1).fs.existsPath ep = false)
      ∧ ((pipeline cancelEnv emptySys c1Url false false false).1).cache = s2.cache
      ∧ ((pipeline cancelEnv emptySys c1Url false false false).1).dls = s2.dls
      ∧ ((pipeline cancelEnv emptySys c1Url false false false).1).exs = s2.exs :=
  c1_failure_rollback cancelEnv emptySys c1Url false false false
    (pipeline cancelEnv emptySys c1Url false false false).1 Err.cancelled rfl

/-- C2: within the pipeline, the transport download is invoked exactly when
the record's artifact file is missing on disk, or the record is expired, or
force_download is set; and when a download happened on a successful run the
record update is persisted, leaving a record stamped with the current time. -/
theorem c2_download_iff (env : Env) (s : Sys) (url : Str) (e fd fe : Bool)
    (hkey : ∀ r, s.cache url = some r → r.url = url) :
    ((pipeline env s url e fd fe).1).dls
      = s.dls
        + (if needsDownload env s.fs (lookupOrAdd s.cache url env.now).1 fd then 1 else 0)
    ∧ (∀ s' p, pipeline env s url e fd fe = (s', Except.ok p) →
        needsDownload env s.fs (lookupOrAdd s.cache url env.now).1 fd = true →
        ∃ r, s'.cache url = some r ∧ r.updated_at = env.now) := by
  constructor
  · exact pipeline_dls env s url e fd fe
  · intro s' p h hdl
    rw [pipeline_eq] at h
    set cf := (lookupOrAdd s.cache url env.now).1 with hcf
    set s1 : Sys := { s with cache := (lookupOrAdd s.cache url env.now).2 } with hs1
    cases hres : env.downloadResult cf.url with
    | some er =>
      rw [tryBody_dl_err (show needsDownload env s1.fs cf fd = true from hdl) hres] at h
      exact absurd h (by simp)
    | none =>
      rw [tryBody_dl_ok (show needsDownload env s1.fs cf fd = true from hdl) hres] at h
      rcases hF : finishBody env
          { s1 with fs := s1.fs.addFile cf.local_path, dls := s1.dls + 1 } cf true e fe
        with ⟨sF, cfF, rF⟩
      rw [hF] at h
      cases rF with
      | error er => exact absurd h (by simp)
      | ok ret =>
        obtain ⟨h1, h2⟩ : sF = s' ∧ ret = p := by simpa using h
        obtain ⟨hcache, hurl⟩ := finishBody_ok_dl_cache hF
        have hcfurl : cf.url = url := by
          cases hlk : s.cache url with
          | some r =>
            rw [hcf, lookupOrAdd_found hlk]
            exact hkey r hlk
          | none =>
            rw [hcf, lookupOrAdd_fresh hlk]
        refine ⟨{ cfF with updated_at := env.now }, ?_, rfl⟩
        rw [← h1, hcache]
        show (if url = cfF.url then some { cfF with updated_at := env.now }
          else ({ s1 with fs := s1.fs.addFile cf.local_path, dls := s1.dls + 1 } : Sys).cache url)
          = some { cfF with updated_at := env.now }
        rw [if_pos (hurl.trans hcfurl).symm]

/-- Witness for c2_download_iff: resolving a fresh URL against an empty
store with a succeeding transport downloads once and persists the stamped
record. -/
theorem c2_download_iff_witness :
    ((pipeline okEnv emptySys c2Url false false false).1).dls
      = emptySys.dls
        + (if needsDownload okEnv emptySys.fs
              (lookupOrAdd emptySys.cache c2Url okEnv.now).1 false then 1 else 0)
    ∧ (∀ s' p, pipeline okEnv emptySys c2Url false false false = (s', Except.ok p) →
        needsDownload okEnv emptySys.fs
          (lookupOrAdd emptySys.cache c2Url okEnv.now).1 false = true →
        ∃ r, s'.cache c2Url = some r ∧ r.updated_at = okEnv.now) :=
  c2_download_iff okEnv emptySys c2Url false false false
    (fun r h => Option.noConfusion h)

theorem treeClosed_addFile {fs : FS} {ep lp : Str} (h : FS.treeClosed fs ep)
    (hlp : isUnder ep lp = false) : FS.treeClosed (fs.addFile lp) ep := by
  intro hex q hq
  have hexk : fs.existsPath ep = false := by
    rw [addFile_existsPath] at hex
    simp only [Bool.or_eq_false_iff] at hex
    exact hex.2
  obtain ⟨hf, hd⟩ := h hexk q hq
  constructor
  · show (decide (q = lp) || fs.files q) = false
    have hql : q ≠ lp := by
      intro hqeq
      rw [hqeq] at hq
      rw [hq] at hlp
      exact Bool.noConfusion hlp
    rw [decide_eq_false hql, hf]
    rfl
  · exact hd

theorem finishBody_ex_ok_char {env : Env} {t : Sys} {cf : CachedFile} {d e fe : Bool}
    (hg : (wantsExtraction cf d e fe && is_archive_file cf.local_path) = true)
    (hex : env.extractResult cf.local_path = none) :
    finishBody env t cf d e fe
      = ({ removeExisting t (extractTarget cf) with
            exs := (removeExisting t (extractTarget cf)).exs + 1
            fs := (removeExisting t (extractTarget cf)).fs.withExtraction (extractTarget cf)
              (env.archiveContents cf.local_path)
            cache := Cache.update (removeExisting t (extractTarget cf)).cache
              { cf with extraction_path := some (extractTarget cf) } env.now },
         { cf with extraction_path := some (extractTarget cf) },
         Except.ok (if e || fe then extractTarget cf else cf.local_path)) := by
  unfold finishBody
  rw [extractPhase_ok hg hex]
  dsimp only []
  rw [Bool.or_true, if_pos rfl]
  by_cases hef : (e || fe) = true
  · rw [hef, if_pos rfl]
    rfl
  · rw [if_neg (by rw [Bool.eq_false_iff.mpr hef]; exact Bool.noConfusion),
      if_neg (by rw [Bool.eq_false_iff.mpr hef]; exact Bool.noConfusion)]

theorem finishBody_ex_no_char {env : Env} {t : Sys} {cf : CachedFile} {d e fe : Bool}
    (hg : (wantsExtraction cf d e fe && is_archive_file cf.local_path) = false)
    (hep : cf.extraction_path = none) :
    finishBody env t cf d e fe
      = ((if d then { t with cache := Cache.update t.cache cf env.now } else t), cf,
         Except.ok cf.local_path) := by
  unfold finishBody
  rw [extractPhase_no hg]
  dsimp only []
  rw [Bool.or_false, hep]
  by_cases hef : (e || fe) = true
  · rw [hef, if_pos rfl]
  · rw [if_neg (by rw [Bool.eq_false_iff.mpr hef]; exact Bool.noConfusion)]

/-- C3: within the pipeline, the archive collaborator is invoked exactly
when the artifact is a recognized archive and (extraction was requested
with no prior extraction_path, or a fresh download happened while an
extraction_path was present, or force_extract is set); when extraction
runs and succeeds, any pre-existing extraction directory is deleted first
and the deterministically named fresh directory holds exactly the archive
members; and requesting extraction of a non-archive artifact is a silent
no-op that returns local_path without raising. -/
theorem c3_extraction_iff (env : Env) (s : Sys) (url : Str) (e fd fe : Bool)
    (hdl : needsDownload env s.fs (lookupOrAdd s.cache url env.now).1 fd = true →
      env.downloadResult (lookupOrAdd s.cache url env.now).1.url = none)
    (htc : FS.treeClosed s.fs (extractTarget (lookupOrAdd s.cache url env.now).1)) :
    (((pipeline env s url e fd fe).1).exs
      = s.exs
        + (if wantsExtraction (lookupOrAdd s.cache url env.now).1
              (needsDownload env s.fs (lookupOrAdd s.cache url env.now).1 fd) e fe
            && is_archive_file (lookupOrAdd s.cache url env.now).1.local_path
           then 1 else 0))
    ∧ ((wantsExtraction (lookupOrAdd s.cache url env.now).1
          (needsDownload env s.fs (lookupOrAdd s.cache url env.now).1 fd) e fe
        && is_archive_file (lookupOrAdd s.cache url env.now).1.local_path) = true →
       env.extractResult (lookupOrAdd s.cache url env.now).1.local_path = none →
       ((pipeline env s url e fd fe).1).fs.existsPath
           (extractTarget (lookupOrAdd s.cache url env.now).1) = true
       ∧ ∀ q, isUnder (extractTarget (lookupOrAdd s.cache url env.now).1) q = true →
           q ≠ extractTarget (lookupOrAdd s.cache url env.now).1 →
           ((pipeline env s url e fd fe).1).fs.files q
             = decide (q ∈ (env.archiveContents
                  (lookupOrAdd s.cache url env.now).1.local_path).map
                  (fun f => extractTarget (lookupOrAdd s.cache url env.now).1 ++ '/' :: f)))
    ∧ (is_archive_file (lookupOrAdd s.cache url env.now).1.local_path = false →
       (lookupOrAdd s.cache url env.now).1.extraction_path = none →
       pipeline env s url e fd fe
         = ((pipeline env s url e fd fe).1,
            Except.ok (lookupOrAdd s.cache url env.now).1.local_path)) := by
  set cf := (lookupOrAdd s.cache url env.now).1 with hcf
  set s1 : Sys := { s with cache := (lookupOrAdd s.cache url env.now).2 } with hs1
  refine ⟨?_, ?_, ?_⟩
  · rw [pipeline_fst_exs]
    by_cases hnd : needsDownload env s.fs cf fd = true
    · rw [tryBody_dl_ok (show needsDownload env s1.fs cf fd = true from hnd) (hdl hnd),
        finishBody_exs, hnd]
    · rw [tryBody_dl_no
          (show needsDownload env s1.fs cf fd = false from Bool.eq_false_iff.mpr hnd),
        finishBody_exs, Bool.eq_false_iff.mpr hnd]
  · intro hg hex
    by_cases hnd : needsDownload env s.fs cf fd = true
    · rw [hnd] at hg
      rw [pipeline_eq,
        tryBody_dl_ok (show needsDownload env s1.fs cf fd = true from hnd) (hdl hnd),
        finishBody_ex_ok_char hg hex]
      dsimp only []
      constructor
      · exact withExtraction_existsPath_self _ _ _
      · exact extractedFiles_fresh (treeClosed_addFile htc (isUnder_extractTarget_local cf))
    · have hnd' : needsDownload env s.fs cf fd = false := Bool.eq_false_iff.mpr hnd
      rw [hnd'] at hg
      rw [pipeline_eq,
        tryBody_dl_no (show needsDownload env s1.fs cf fd = false from hnd'),
        finishBody_ex_ok_char hg hex]
      dsimp only []
      constructor
      · exact withExtraction_existsPath_self _ _ _
      · exact extractedFiles_fresh htc
  · intro hna hep
    have hgf : (wantsExtraction cf (needsDownload env s.fs cf fd) e fe
        && is_archive_file cf.local_path) = false := by
      rw [hna]
      exact Bool.and_false _
    by_cases hnd : needsDownload env s.fs cf fd = true
    · have hP := pipeline_eq env s url e fd fe
      rw [tryBody_dl_ok (show needsDownload env s1.fs cf fd = true from hnd) (hdl hnd)] at hP
      rw [finishBody_ex_no_char (by rw [hnd] at hgf; exact hgf) hep] at hP
      rw [hP]
    · have hnd' := Bool.eq_false_iff.mpr hnd
      have hP := pipeline_eq env s url e fd fe
      rw [tryBody_dl_no (show needsDownload env s1.fs cf fd = false from hnd')] at hP
      rw [finishBody_ex_no_char (by rw [hnd'] at hgf; exact hgf) hep] at hP
      rw [hP]

/-- Witness for c3_extraction_iff: requesting extraction of a fresh remote
zip archive downloads it, extracts once into the derived directory, and the
directory holds exactly the archive members. -/
theorem c3_extraction_iff_witness :
    (((pipeline zipEnv emptySys c3Url true false false).1).exs
      = emptySys.exs
        + (if wantsExtraction (lookupOrAdd emptySys.cache c3Url zipEnv.now).1
              (needsDownload zipEnv emptySys.fs
                (lookupOrAdd emptySys.cache c3Url zipEnv.now).1 false) true false
            && is_archive_file (lookupOrAdd emptySys.cache c3Url zipEnv.now).1.local_path
           then 1 else 0))
    ∧ ((wantsExtraction (lookupOrAdd emptySys.cache c3Url zipEnv.now).1
          (needsDownload zipEnv emptySys.fs
            (lookupOrAdd emptySys.cache c3Url zipEnv.now).1 false) true false
        && is_archive_file (lookupOrAdd emptySys.cache c3Url zipEnv.now).1.local_path)
          = true →
       zipEnv.extractResult (lookupOrAdd emptySys.cache c3Url zipEnv.now).1.local_path
          = none →
       ((pipeline zipEnv emptySys c3Url true false false).1).fs.existsPath
           (extractTarget (lookupOrAdd emptySys.cache c3Url zipEnv.now).1) = true
       ∧ ∀ q, isUnder (extractTarget (lookupOrAdd emptySys.cache c3Url zipEnv.now).1) q
            = true →
           q ≠ extractTarget (lookupOrAdd emptySys.cache c3Url zipEnv.now).1 →
           ((pipeline zipEnv emptySys c3Url true false false).1).fs.files q
             = decide (q ∈ (zipEnv.archiveContents
                  (lookupOrAdd emptySys.cache c3Url zipEnv.now).1.local_path).map
                  (fun f => extractTarget (lookupOrAdd emptySys.cache c3Url zipEnv.now).1
                    ++ '/' :: f)))
    ∧ (is_archive_file (lookupOrAdd emptySys.cache c3Url zipEnv.now).1.local_path
          = false →
       (lookupOrAdd emptySys.cache c3Url zipEnv.now).1.extraction_path = none →
       pipeline zipEnv emptySys c3Url true false false
         = ((pipeline zipEnv emptySys c3Url true false false).1,
            Except.ok (lookupOrAdd emptySys.cache c3Url zipEnv.now).1.local_path)) :=
  c3_extraction_iff zipEnv emptySys c3Url true false false
    (fun _ => rfl) (fun _ q _ => ⟨rfl, rfl⟩)

theorem downloadPhase_cache (env : Env) (t : Sys) (cf : CachedFile) (fd : Bool) :
    ((downloadPhase env t cf fd).1).cache = t.cache := by
  by_cases h : needsDownload env t.fs cf fd = true
  · cases hres : env.downloadResult cf.url with
    | some er => rw [downloadPhase_err h hres]
    | none => rw [downloadPhase_ok h hres]
  · rw [downloadPhase_no (Bool.eq_false_iff.mpr h)]

theorem finishBody_err_cache {env : Env} {t : Sys} {cf : CachedFile} {d e fe : Bool}
    {s2 : Sys} {cf2 : CachedFile} {er : Err}
    (h : finishBody env t cf d e fe = (s2, cf2, Except.error er)) : s2.cache = t.cache := by
  unfold finishBody at h
  rcases hE : extractPhase env t cf d e fe with ⟨sE, cfE, rE⟩
  rw [hE] at h
  have hEc : sE.cache = t.cache := by
    have h3 := extractPhase_cache env t cf d e fe
    rw [hE] at h3
    exact h3
  cases rE with
  | error er2 =>
    obtain ⟨h1, h2, h3⟩ : sE = s2 ∧ cfE = cf2 ∧ er2 = er := by simpa using h
    rw [← h1]
    exact hEc
  | ok extracted =>
    dsimp only [] at h
    cases hd : (d || extracted) <;> cases hef : (e || fe) <;>
      cases hep : cfE.extraction_path <;> simp [hd, hef, hep] at h

theorem tryBody_err_cache {env : Env} {t : Sys} {cf : CachedFile} {e fd fe : Bool}
    {s2 : Sys} {cf2 : CachedFile} {er : Err}
    (h : tryBody env t cf e fd fe = (s2, cf2, Except.error er)) : s2.cache = t.cache := by
  unfold tryBody at h
  rcases hD : downloadPhase env t cf fd with ⟨sD, rD⟩
  rw [hD] at h
  have hDc : sD.cache = t.cache := by
    have h3 := downloadPhase_cache env t cf fd
    rw [hD] at h3
    exact h3
  cases rD with
  | error er2 =>
    obtain ⟨h1, h2, h3⟩ : sD = s2 ∧ cf = cf2 ∧ er2 = er := by simpa using h
    rw [← h1]
    exact hDc
  | ok d =>
    rw [← hDc]
    exact finishBody_err_cache h

theorem finishBody_ex_err_char {env : Env} {t : Sys} {cf : CachedFile} {d e fe : Bool}
    {er : Err}
    (hg : (wantsExtraction cf d e fe && is_archive_file cf.local_path) = true)
    (hex : env.extractResult cf.local_path = some er) :
    finishBody env t cf d e fe
      = ({ removeExisting t (extractTarget cf) with
            exs := (removeExisting t (extractTarget cf)).exs + 1 },
         { cf with extraction_path := some (extractTarget cf) }, Except.error er) := by
  unfold finishBody
  rw [extractPhase_err hg hex]

theorem finishBody_no_run_char {env : Env} {t : Sys} {cf : CachedFile} {d e fe : Bool}
    (hg : (wantsExtraction cf d e fe && is_archive_file cf.local_path) = false) :
    finishBody env t cf d e fe
      = ((if d then { t with cache := Cache.update t.cache cf env.now } else t), cf,
         Except.ok (if (e || fe) && cf.extraction_path.isSome
                    then cf.extraction_path.getD cf.local_path else cf.local_path)) := by
  unfold finishBody
  rw [extractPhase_no hg]
  dsimp only []
  rw [Bool.or_false]
  by_cases hef : (e || fe) = true
  · rw [hef, if_pos rfl]
    cases hep : cf.extraction_path with
    | some x => rfl
    | none => rfl
  · have hef' := Bool.eq_false_iff.mpr hef
    rw [if_neg (by rw [hef']; exact Bool.noConfusion), hef']
    rfl

theorem finishBody_ok_split {env : Env} {t : Sys} {cf : CachedFile} {d e fe : Bool}
    {s' : Sys} {cf2 : CachedFile} {ret : Str}
    (h : finishBody env t cf d e fe = (s', cf2, Except.ok ret)) :
    ((wantsExtraction cf d e fe && is_archive_file cf.local_path) = true
      ∧ env.extractResult cf.local_path = none
      ∧ cf2 = { cf with extraction_path := some (extractTarget cf) }
      ∧ s'.fs = (removeExisting t (extractTarget cf)).fs.withExtraction (extractTarget cf)
          (env.archiveContents cf.local_path)
      ∧ s'.cache = Cache.update t.cache cf2 env.now
      ∧ ret = (if e || fe then extractTarget cf else cf.local_path))
    ∨ ((wantsExtraction cf d e fe && is_archive_file cf.local_path) = false
      ∧ cf2 = cf ∧ s'.fs = t.fs
      ∧ s'.cache = (if d = true then Cache.update t.cache cf env.now else t.cache)
      ∧ ret = (if (e || fe) && cf.extraction_path.isSome
               then cf.extraction_path.getD cf.local_path else cf.local_path)) := by
  by_cases hg : (wantsExtraction cf d e fe && is_archive_file cf.local_path) = true
  · cases hex : env.extractResult cf.local_path with
    | some er =>
      rw [finishBody_ex_err_char hg hex] at h
      exact absurd h (by simp)
    | none =>
      rw [finishBody_ex_ok_char hg hex] at h
      obtain ⟨h1, h2, h3⟩ :
          ({ removeExisting t (extractTarget cf) with
              exs := (removeExisting t (extractTarget cf)).exs + 1
              fs := (removeExisting t (extractTarget cf)).fs.withExtraction (extractTarget cf)
                (env.archiveContents cf.local_path)
              cache := Cache.update (removeExisting t (extractTarget cf)).cache
                { cf with extraction_path := some (extractTarget cf) } env.now } : Sys) = s'
          ∧ ({ cf with extraction_path := some (extractTarget cf) } : CachedFile) = cf2
          ∧ (if e || fe then extractTarget cf else cf.local_path) = ret := by
        simpa using h
      left
      refine ⟨hg, rfl, h2.symm, ?_, ?_, h3.symm⟩
      · rw [← h1]
      · rw [← h1, ← h2]
        show Cache.update (removeExisting t (extractTarget cf)).cache
            { cf with extraction_path := some (extractTarget cf) } env.now
          = Cache.update t.cache { cf with extraction_path := some (extractTarget cf) } env.now
        rw [removeExisting_cache]
  · have hg' := Bool.eq_false_iff.mpr hg
    rw [finishBody_no_run_char hg'] at h
    obtain ⟨h1, h2, h3⟩ :
        (if d = true then ({ t with cache := Cache.update t.cache cf env.now } : Sys) else t)
            = s'
        ∧ cf = cf2
        ∧ (if (e || fe) && cf.extraction_path.isSome
            then cf.extraction_path.getD cf.local_path else cf.local_path) = ret := by
      simpa using h
    right
    refine ⟨hg', h2.symm, ?_, ?_, h3.symm⟩
    · rw [← h1]
      cases d <;> rfl
    · rw [← h1]
      cases d <;> rfl

theorem cacheUpdate_self {c : Cache} {r : CachedFile} {now : Nat} {url : Str}
    (h : r.url = url) : Cache.update c r now url = some { r with updated_at := now } := by
  unfold Cache.update
  rw [if_pos h.symm]

/-- Counterexample to C4: resolving a fresh URL whose download fails leaves
a persisted metadata record — created by Cache.add before the download —
whose local_path does not exist on disk, so the store does point at a
missing file while the transport error propagates. -/
theorem c4_add_persists_missing_cex :
    ((pipeline dlFailEnv emptySys c4Url false false false).1).cache c4Url = some c4Rec
    ∧ ((pipeline dlFailEnv emptySys c4Url false false false).1).fs.existsPath
        c4Rec.local_path = false
    ∧ (pipeline dlFailEnv emptySys c4Url false false false).2
        = Except.error Err.transport :=
  ⟨rfl, rfl, rfl⟩

/-- C4 amended: within the pipeline, `update` never persists a record
pointing at missing files — a successful run either leaves the store as
the lookup/add step left it, or stores a record whose local_path exists on
disk and whose extraction_path, when set, exists on disk; and on any
failure nothing beyond the initial add is persisted.  (Cache.add itself
persists a fresh record before its artifact exists, and rollback leaves
the pre-existing row behind, which is what refutes the claim as stated.) -/
theorem c4_update_never_persists_missing (env : Env) (s : Sys) (url : Str) (e fd fe : Bool)
    (hkey : ∀ r, s.cache url = some r → r.url = url)
    (hwf1 : (lookupOrAdd s.cache url env.now).1.extraction_path.isSome = true →
      is_archive_file (lookupOrAdd s.cache url env.now).1.local_path = true) :
    (∀ s' p, pipeline env s url e fd fe = (s', Except.ok p) →
      s'.cache = (lookupOrAdd s.cache url env.now).2
      ∨ ∃ r, s'.cache url = some r ∧ s'.fs.existsPath r.local_path = true
          ∧ ∀ x, r.extraction_path = some x → s'.fs.existsPath x = true)
    ∧ (∀ s' er, pipeline env s url e fd fe = (s', Except.error er) →
      s'.cache = (lookupOrAdd s.cache url env.now).2) := by
  set cf := (lookupOrAdd s.cache url env.now).1 with hcf
  set s1 : Sys := { s with cache := (lookupOrAdd s.cache url env.now).2 } with hs1
  have hcfurl : cf.url = url := by
    cases hlk : s.cache url with
    | some r =>
      rw [hcf, lookupOrAdd_found hlk]
      exact hkey _ hlk
    | none => rw [hcf, lookupOrAdd_fresh hlk]
  constructor
  · intro s' p h
    rw [pipeline_eq] at h
    rcases hT : tryBody env s1 cf e fd fe with ⟨sF, cfF, rF⟩
    rw [hT] at h
    cases rF with
    | error er => exact absurd h (by simp)
    | ok ret =>
      obtain ⟨h1, h2⟩ : sF = s' ∧ ret = p := by simpa using h
      subst h1
      by_cases hnd : needsDownload env s1.fs cf fd = true
      · cases hres : env.downloadResult cf.url with
        | some er2 =>
          rw [tryBody_dl_err hnd hres] at hT
          exact absurd hT (by simp)
        | none =>
          rw [tryBody_dl_ok hnd hres] at hT
          rcases finishBody_ok_split hT with ⟨hg, hex, hcf2, hfs, hcache, hret⟩
            | ⟨hg, hcf2, hfs, hcache, hret⟩
          · right
            refine ⟨{ cfF with updated_at := env.now }, ?_, ?_, ?_⟩
            · rw [hcache]
              exact cacheUpdate_self (by rw [hcf2]; exact hcfurl)
            · rw [hfs]
              show ((removeExisting _ (extractTarget cf)).fs.withExtraction _ _).existsPath
                  cfF.local_path = true
              rw [hcf2]
              exact withExtraction_removeExisting_preserves (isUnder_extractTarget_local cf)
                (addFile_existsPath_self _ _)
            · intro x hx
              have hx3 : extractTarget cf = x := by
                rw [hcf2] at hx
                simpa using hx
              rw [hfs, ← hx3]
              exact withExtraction_existsPath_self _ _ _
          · right
            refine ⟨{ cf with updated_at := env.now }, ?_, ?_, ?_⟩
            · rw [hcache]
              show Cache.update _ cf env.now url = _
              exact cacheUpdate_self hcfurl
            · rw [hfs]
              show (s1.fs.addFile cf.local_path).existsPath
                  ({ cf with updated_at := env.now } : CachedFile).local_path = true
              exact addFile_existsPath_self _ _
            · intro x hx
              have hx' : cf.extraction_path = some x := hx
              have hw : wantsExtraction cf true e fe = true := by
                simp [wantsExtraction, hx']
              have harch := hwf1 (by rw [hx']; rfl)
              rw [hw, harch] at hg
              simp at hg
      · have hnd' := Bool.eq_false_iff.mpr hnd
        have hloc : s1.fs.existsPath cf.local_path = true := by
          cases hb : s1.fs.existsPath cf.local_path with
          | true => rfl
          | false =>
            unfold needsDownload at hnd'
            rw [hb] at hnd'
            simp at hnd'
        rw [tryBody_dl_no hnd'] at hT
        rcases finishBody_ok_split hT with ⟨hg, hex, hcf2, hfs, hcache, hret⟩
          | ⟨hg, hcf2, hfs, hcache, hret⟩
        · right
          refine ⟨{ cfF with updated_at := env.now }, ?_, ?_, ?_⟩
          · rw [hcache]
            exact cacheUpdate_self (by rw [hcf2]; exact hcfurl)
          · rw [hfs]
            show ((removeExisting _ (extractTarget cf)).fs.withExtraction _ _).existsPath
                cfF.local_path = true
            rw [hcf2]
            exact withExtraction_removeExisting_preserves (isUnder_extractTarget_local cf) hloc
          · intro x hx
            have hx3 : extractTarget cf = x := by
              rw [hcf2] at hx
              simpa using hx
            rw [hfs, ← hx3]
            exact withExtraction_existsPath_self _ _ _
        · left
          rw [hcache]
          rfl
  · intro s' er h
    rw [pipeline_eq] at h
    rcases hT : tryBody env s1 cf e fd fe with ⟨sF, cfF, rF⟩
    rw [hT] at h
    cases rF with
    | ok ret => exact absurd h (by simp)
    | error er2 =>
      obtain ⟨h1, h2⟩ : ({ sF with fs := rollbackFS sF.fs cfF } : Sys) = s' ∧ er2 = er := by
        simpa using h
      rw [← h1]
      show sF.cache = s1.cache
      exact tryBody_err_cache hT

/-- Witness for c4_update_never_persists_missing: a successful fresh
resolution stores a record whose artifact file exists. -/
theorem c4_update_never_persists_missing_witness :
    (∀ s' p, pipeline okEnv emptySys c4Url false false false = (s', Except.ok p) →
      s'.cache = (lookupOrAdd emptySys.cache c4Url okEnv.now).2
      ∨ ∃ r, s'.cache c4Url = some r ∧ s'.fs.existsPath r.local_path = true
          ∧ ∀ x, r.extraction_path = some x → s'.fs.existsPath x = true)
    ∧ (∀ s' er, pipeline okEnv emptySys c4Url false false false = (s', Except.error er) →
      s'.cache = (lookupOrAdd emptySys.cache c4Url okEnv.now).2) :=
  c4_update_never_persists_missing okEnv emptySys c4Url false false false
    (fun _ h => Option.noConfusion h) (fun h => Bool.noConfusion h)

/-- C5: the mode check of Minato.open (line 40-43 of minato.py) requires
all four of the characters a, w, x and + to occur in the mode string
before it bypasses the cache, so pure append, write, exclusive-creation
and update modes all resolve through cached_path — the intended bypass
never fires for any valid mode string. -/
theorem c5_append_mode_uses_cache :
    minatoOpenUsesCache ("a".toList) true = true
    ∧ minatoOpenUsesCache ("w".toList) true = true
    ∧ minatoOpenUsesCache ("x".toList) true = true
    ∧ minatoOpenUsesCache ("a+".toList) true = true
    ∧ minatoOpenUsesCache ("w+b".toList) true = true
    ∧ minatoOpenUsesCache ("awx+".toList) true = false := by
  decide

/-- C9: the module-level convenience functions fail on every call — the
module open and cached_path forward keyword arguments that Minato.open and
Minato.cached_path do not accept, raising TypeError before any resolution
work, and remove_cache and delete call attributes the Minato class does
not define, raising AttributeError. -/
theorem c9_module_functions_fail :
    callRaisesTypeError minatoOpenKeywordParams moduleOpenForwardedKeywords = true
    ∧ callRaisesTypeError minatoCachedPathKeywordParams
        moduleCachedPathForwardedKeywords = true
    ∧ minatoAttributes.contains "remove_cache" = false
    ∧ minatoAttributes.contains "delete" = false := by
  decide

theorem pipeline_ok_exists (env : Env) (s : Sys) (url : Str) (e fd fe : Bool)
    (hwf : recordWF s url) :
    ∀ s' p, pipeline env s url e fd fe = (s', Except.ok p) → s'.fs.existsPath p = true := by
  intro s' p h
  set cf := (lookupOrAdd s.cache url env.now).1 with hcf
  set s1 : Sys := { s with cache := (lookupOrAdd s.cache url env.now).2 } with hs1
  have hwf1 : cf.extraction_path.isSome = true → is_archive_file cf.local_path = true := by
    cases hlk : s.cache url with
    | some r =>
      rw [hcf, lookupOrAdd_found hlk]
      exact (hwf r hlk).1
    | none =>
      rw [hcf, lookupOrAdd_fresh hlk]
      intro hx
      exact absurd hx (by simp)
  have hwf2 : ∀ x, cf.extraction_path = some x →
      s.fs.existsPath x = true ∨ s.fs.existsPath cf.local_path = false := by
    cases hlk : s.cache url with
    | some r =>
      rw [hcf, lookupOrAdd_found hlk]
      exact (hwf r hlk).2
    | none =>
      rw [hcf, lookupOrAdd_fresh hlk]
      intro x hx
      exact absurd hx (by simp)
  rw [pipeline_eq] at h
  rcases hT : tryBody env s1 cf e fd fe with ⟨sF, cfF, rF⟩
  rw [hT] at h
  cases rF with
  | error er => exact absurd h (by simp)
  | ok ret =>
    obtain ⟨h1, h2⟩ : sF = s' ∧ ret = p := by simpa using h
    subst h1
    rw [← h2]
    by_cases hnd : needsDownload env s1.fs cf fd = true
    · cases hres : env.downloadResult cf.url with
      | some er2 =>
        rw [tryBody_dl_err hnd hres] at hT
        exact absurd hT (by simp)
      | none =>
        rw [tryBody_dl_ok hnd hres] at hT
        rcases finishBody_ok_split hT with ⟨hg, hex, hcf2, hfs, hcache, hret⟩
          | ⟨hg, hcf2, hfs, hcache, hret⟩
        · rw [hret, hfs]
          by_cases hef : (e || fe) = true
          · rw [if_pos hef]
            exact withExtraction_existsPath_self _ _ _
          · rw [if_neg (by rw [Bool.eq_false_iff.mpr hef]; exact Bool.noConfusion)]
            exact withExtraction_removeExisting_preserves (isUnder_extractTarget_local cf)
              (addFile_existsPath_self _ _)
        · rw [hret, hfs]
          cases hep : cf.extraction_path with
          | some x =>
            have hw : wantsExtraction cf true e fe = true := by
              simp [wantsExtraction, hep]
            have harch := hwf1 (by rw [hep]; rfl)
            rw [hw, harch] at hg
            simp at hg
          | none =>
            have hc : ((e || fe) && (none : Option Str).isSome) = false := by
              simp
            rw [hc, if_neg (by decide)]
            exact addFile_existsPath_self _ _
    · have hnd' := Bool.eq_false_iff.mpr hnd
      have hloc : s1.fs.existsPath cf.local_path = true := by
        cases hb : s1.fs.existsPath cf.local_path with
        | true => rfl
        | false =>
          unfold needsDownload at hnd'
          rw [hb] at hnd'
          simp at hnd'
      rw [tryBody_dl_no hnd'] at hT
      rcases finishBody_ok_split hT with ⟨hg, hex, hcf2, hfs, hcache, hret⟩
        | ⟨hg, hcf2, hfs, hcache, hret⟩
      · rw [hret, hfs]
        by_cases hef : (e || fe) = true
        · rw [if_pos hef]
          exact withExtraction_existsPath_self _ _ _
        · rw [if_neg (by rw [Bool.eq_false_iff.mpr hef]; exact Bool.noConfusion)]
          exact withExtraction_removeExisting_preserves (isUnder_extractTarget_local cf) hloc
      · rw [hret, hfs]
        cases hep : cf.extraction_path with
        | some x =>
          rcases hwf2 x hep with hex1 | hex2
          · by_cases hef : (e || fe) = true
            · have hc : ((e || fe) && (some x).isSome) = true := by
                rw [hef]
                rfl
              rw [hc, if_pos rfl]
              exact hex1
            · have hc : ((e || fe) && (some x).isSome) = false := by
                rw [Bool.eq_false_iff.mpr hef]
                rfl
              rw [hc, if_neg (by decide)]
              exact hloc
          · exact absurd (hex2.symm.trans hloc) (by decide)
        | none =>
          have hc : ((e || fe) && (none : Option Str).isSome) = false := by
            simp
          rw [hc, if_neg (by decide)]
          exact hloc

/-- Counterexample to C7: resolving a nested reference whose inner path
names a member the archive does not contain succeeds, yet the returned
path does not exist on disk at the time of return. -/
theorem c7_returned_path_missing_cex :
    (cachedPath zipEnv zipSys c7Ident false false false).2
      = Except.ok ("cache/a.zip-extracted/missing.txt".toList)
    ∧ ((cachedPath zipEnv zipSys c7Ident false false false).1).fs.existsPath
        ("cache/a.zip-extracted/missing.txt".toList) = false :=
  ⟨rfl, rfl⟩

/-- C7 amended: for every identifier without the nested-archive marker,
whenever cached_path returns successfully from a state whose record for
the resolved url is well-formed, the returned path exists on disk; for
nested references the joined inner path is returned without an existence
check, so the guarantee holds only when the archive contains the member. -/
theorem c7_returned_path_exists (env : Env) (s : Sys) (ident : Str) (e fd fe : Bool)
    (hbang : rsplitLast '!' ident = none)
    (hwf : recordWF s (resolvedUrl s.fs ident)) :
    ∀ s' p, cachedPath env s ident e fd fe = (s', Except.ok p) →
      s'.fs.existsPath p = true := by
  intro s' p h
  rw [cachedPath_nobang hbang] at h
  by_cases hloc : (is_local s.fs ident && !e && !(is_archive_file (resolvedUrl s.fs ident)))
      = true
  · rw [if_pos hloc] at h
    obtain ⟨h1, h2⟩ : s = s' ∧ resolvedUrl s.fs ident = p := by simpa using h
    have hl : is_local s.fs ident = true := by
      rcases Bool.and_eq_true_iff.mp (Bool.and_eq_true_iff.mp hloc).1 with ⟨ha, _⟩
      exact ha
    rw [← h1, ← h2]
    show s.fs.existsPath (resolvedUrl s.fs ident) = true
    unfold resolvedUrl
    rw [if_pos hl]
    exact hl
  · rw [if_neg hloc] at h
    exact pipeline_ok_exists env s (resolvedUrl s.fs ident) e fd fe hwf s' p h

/-- Witness for c7_returned_path_exists: a marker-free remote URL resolved
from an empty store returns its downloaded artifact path, which exists. -/
theorem c7_returned_path_exists_witness :
    ((cachedPath okEnv emptySys c1Url true false false).1).fs.existsPath
      ("cache/http://h/a.txt".toList) = true :=
  c7_returned_path_exists okEnv emptySys c1Url true false false (by decide)
    (fun r h => Option.noConfusion h)
    (cachedPath okEnv emptySys c1Url true false false).1
    ("cache/http://h/a.txt".toList) rfl

/-- C6: every identifier containing the nested-archive marker is split at
the last occurrence of the marker; cached_path recursively resolves the
outer reference with extract set (forwarding both force flags), fails with
InvalidReference when the recursively resolved path is not a directory,
and otherwise returns the extracted directory joined with the normalized
inner path in the very state the recursion produced — the cache is not
touched again. -/
theorem c6_nested_reference (env : Env) (s : Sys) (ident : Str) (e fd fe : Bool)
    (hmem : '!' ∈ ident) :
    ∃ outer inner, rsplitLast '!' ident = some (outer, inner)
      ∧ ident = outer ++ '!' :: inner ∧ '!' ∉ inner
      ∧ (∀ s1 er, cachedPath env s outer true fd fe = (s1, Except.error er) →
          cachedPath env s ident e fd fe = (s1, Except.error er))
      ∧ (∀ s1 p, cachedPath env s outer true fd fe = (s1, Except.ok p) →
          (s1.fs.isDir p = false →
            cachedPath env s ident e fd fe = (s1, Except.error Err.invalidReference))
          ∧ (s1.fs.isDir p = true →
            cachedPath env s ident e fd fe
              = (s1, Except.ok (p ++ '/' :: extract_path inner)))) := by
  obtain ⟨outer, inner, hsplit⟩ := rsplitLast_isSome hmem
  obtain ⟨hdecomp, hnot⟩ := rsplitLast_decomp hsplit
  refine ⟨outer, inner, hsplit, hdecomp, hnot, ?_, ?_⟩
  · intro s1 er hrec
    rw [cachedPath_bang hsplit, hrec]
  · intro s1 p hrec
    constructor
    · intro hdir
      rw [cachedPath_bang hsplit, hrec]
      dsimp only []
      rw [if_neg (by rw [hdir]; exact Bool.noConfusion)]
    · intro hdir
      rw [cachedPath_bang hsplit, hrec]
      dsimp only []
      rw [if_pos hdir]

/-- Witness for c6_nested_reference: the reference a.zip!data.txt splits
into the local archive and its member name. -/
theorem c6_nested_reference_witness :
    ∃ outer inner, rsplitLast '!' c6Ident = some (outer, inner)
      ∧ c6Ident = outer ++ '!' :: inner ∧ '!' ∉ inner
      ∧ (∀ s1 er, cachedPath zipEnv zipSys outer true false false
            = (s1, Except.error er) →
          cachedPath zipEnv zipSys c6Ident false false false = (s1, Except.error er))
      ∧ (∀ s1 p, cachedPath zipEnv zipSys outer true false false = (s1, Except.ok p) →
          (s1.fs.isDir p = false →
            cachedPath zipEnv zipSys c6Ident false false false
              = (s1, Except.error Err.invalidReference))
          ∧ (s1.fs.isDir p = true →
            cachedPath zipEnv zipSys c6Ident false false false
              = (s1, Except.ok (p ++ '/' :: extract_path inner)))) :=
  c6_nested_reference zipEnv zipSys c6Ident false false false (by decide)

theorem pipeline_fresh_ok (env : Env) (s : Sys) (url : Str)
    (hfresh : s.cache url = none)
    (hnf : s.fs.existsPath (localPathOf url) = false)
    (hdl : env.downloadResult url = none) :
    pipeline env s url false false false
      = ({ fs := s.fs.addFile (localPathOf url),
           cache := Cache.update
             (fun u => if u = url then some ⟨url, localPathOf url, none, env.now⟩
               else s.cache u)
             ⟨url, localPathOf url, none, env.now⟩ env.now,
           dls := s.dls + 1, exs := s.exs }, Except.ok (localPathOf url)) := by
  have hstep := pipeline_eq env s url false false false
  rw [lookupOrAdd_fresh hfresh] at hstep
  dsimp only [] at hstep
  have hndl0 : needsDownload env s.fs
      (⟨url, localPathOf url, none, env.now⟩ : CachedFile) false = true := by
    unfold needsDownload
    rw [show s.fs.existsPath
        (⟨url, localPathOf url, none, env.now⟩ : CachedFile).local_path = false from hnf]
    rfl
  have hndl : needsDownload env
      ({ s with cache := fun u => if u = url then some ⟨url, localPathOf url, none, env.now⟩
          else s.cache u } : Sys).fs
      (⟨url, localPathOf url, none, env.now⟩ : CachedFile) false = true := hndl0
  have hdl' : env.downloadResult
      (⟨url, localPathOf url, none, env.now⟩ : CachedFile).url = none := hdl
  rw [tryBody_dl_ok hndl hdl'] at hstep
  have hg : (wantsExtraction (⟨url, localPathOf url, none, env.now⟩ : CachedFile)
        true false false
      && is_archive_file (⟨url, localPathOf url, none, env.now⟩ : CachedFile).local_path)
      = false := rfl
  have hep : (⟨url, localPathOf url, none, env.now⟩ : CachedFile).extraction_path
      = none := rfl
  rw [finishBody_ex_no_char hg hep] at hstep
  rw [hstep]
  rfl

theorem pipeline_cached_noop (env : Env) (t : Sys) (url : Str) (r : CachedFile)
    (hfound : t.cache url = some r)
    (hex : t.fs.existsPath r.local_path = true)
    (hexpf : isExpired env.expireDays env.now r = false)
    (hep : r.extraction_path = none) :
    pipeline env t url false false false = (t, Except.ok r.local_path) := by
  have hstep := pipeline_eq env t url false false false
  rw [lookupOrAdd_found hfound] at hstep
  dsimp only [] at hstep
  rw [show ({ t with cache := t.cache } : Sys) = t from rfl] at hstep
  have hnd : needsDownload env t.fs r false = false := by
    unfold needsDownload
    rw [hex, hexpf]
    rfl
  rw [tryBody_dl_no hnd] at hstep
  have hg : (wantsExtraction r false false false && is_archive_file r.local_path)
      = false := rfl
  rw [finishBody_ex_no_char hg hep] at hstep
  rw [hstep]
  rfl

/-- C8: resolving the same fresh URL through cached_path twice with no
force flags, a succeeding transport and an expiration window that does not
expire immediately performs exactly one download in total — the second
resolution leaves the state untouched (zero additional transport or
extraction calls) and returns the same local path. -/
theorem c8_idempotent_caching (env : Env) (s : Sys) (url : Str)
    (hb : rsplitLast '!' url = none)
    (hfresh : s.cache url = none)
    (hnl : is_local s.fs url = false)
    (hnf : s.fs.existsPath (localPathOf url) = false)
    (hdl : env.downloadResult url = none)
    (hexp : ∀ d, env.expireDays = some d → 0 < d) :
    ∃ s1, cachedPath env s url false false false = (s1, Except.ok (localPathOf url))
      ∧ s1.dls = s.dls + 1 ∧ s1.exs = s.exs
      ∧ cachedPath env s1 url false false false = (s1, Except.ok (localPathOf url)) := by
  have hcond : (is_local s.fs url && !false
      && !(is_archive_file (resolvedUrl s.fs url))) = false := by
    rw [hnl]
    rfl
  have hru : resolvedUrl s.fs url = url := by
    unfold resolvedUrl
    rw [hnl, if_neg (by decide)]
  have hc1 : cachedPath env s url false false false
      = pipeline env s url false false false := by
    rw [cachedPath_nobang hb, if_neg (by rw [hcond]; exact Bool.noConfusion), hru]
  rw [hc1, pipeline_fresh_ok env s url hfresh hnf hdl]
  refine ⟨_, rfl, rfl, rfl, ?_⟩
  have hne : extract_path url ≠ localPathOf url := by
    intro hcon
    have h1 := extract_path_length url
    have h2 := localPathOf_length url
    rw [hcon] at h1
    omega
  have hnl' : s.fs.existsPath (extract_path url) = false := hnl
  have hnl2 : is_local (s.fs.addFile (localPathOf url)) url = false := by
    show (s.fs.addFile (localPathOf url)).existsPath (extract_path url) = false
    rw [addFile_existsPath, decide_eq_false hne, hnl']
    rfl
  have hcond2 : (is_local (s.fs.addFile (localPathOf url)) url && !false
      && !(is_archive_file (resolvedUrl (s.fs.addFile (localPathOf url)) url))) = false := by
    rw [hnl2]
    rfl
  have hru2 : resolvedUrl (s.fs.addFile (localPathOf url)) url = url := by
    unfold resolvedUrl
    rw [hnl2, if_neg (by decide)]
  rw [cachedPath_nobang hb]
  dsimp only []
  rw [if_neg (by rw [hcond2]; exact Bool.noConfusion), hru2]
  have hfound : (Cache.update
      (fun u => if u = url then some (⟨url, localPathOf url, none, env.now⟩ : CachedFile)
        else s.cache u)
      (⟨url, localPathOf url, none, env.now⟩ : CachedFile) env.now) url
      = some (⟨url, localPathOf url, none, env.now⟩ : CachedFile) :=
    cacheUpdate_self rfl
  have hex1 : (s.fs.addFile (localPathOf url)).existsPath
      (⟨url, localPathOf url, none, env.now⟩ : CachedFile).local_path = true :=
    addFile_existsPath_self _ _
  have hexpf : isExpired env.expireDays env.now
      (⟨url, localPathOf url, none, env.now⟩ : CachedFile) = false := by
    unfold isExpired
    cases hed : env.expireDays with
    | none => rfl
    | some d =>
      have hd := hexp d hed
      show decide (env.now - env.now ≥ d) = false
      exact decide_eq_false (by omega)
  exact pipeline_cached_noop env _ url (⟨url, localPathOf url, none, env.now⟩ : CachedFile)
    hfound hex1 hexpf rfl

/-- Witness for c8_idempotent_caching at a concrete fresh URL against the
empty store with a succeeding transport. -/
theorem c8_idempotent_caching_witness :
    ∃ s1, cachedPath okEnv emptySys c8Url false false false
        = (s1, Except.ok (localPathOf c8Url))
      ∧ s1.dls = emptySys.dls + 1 ∧ s1.exs = emptySys.exs
      ∧ cachedPath okEnv s1 c8Url false false false
        = (s1, Except.ok (localPathOf c8Url)) :=
  c8_idempotent_caching okEnv emptySys c8Url (by decide) rfl rfl rfl rfl
    (fun d h => Option.noConfusion h)

/-- C10: when the pipeline fails — here extraction failing on an artifact
file that pre-existed the call, was complete and needed no download — the
rollback deletes the file at the record's local_path anyway; the record
row survives, so the next resolution of that URL needs and performs a
fresh transport download. -/
theorem c10_rollback_deletes_preexisting (env : Env) (s : Sys) (url : Str)
    (e fd fe : Bool) (cf : CachedFile) (er : Err)
    (hrec : s.cache url = some cf)
    (hexists : s.fs.existsPath cf.local_path = true)
    (hnodl : needsDownload env s.fs cf fd = false)
    (hg : (wantsExtraction cf false e fe && is_archive_file cf.local_path) = true)
    (hex : env.extractResult cf.local_path = some er) :
    ∃ s', pipeline env s url e fd fe = (s', Except.error er)
      ∧ s'.fs.existsPath cf.local_path = false
      ∧ s'.cache url = some cf
      ∧ needsDownload env s'.fs cf fd = true
      ∧ ((pipeline env s' url e fd fe).1).dls = s'.dls + 1 := by
  have hstep := pipeline_eq env s url e fd fe
  rw [lookupOrAdd_found hrec] at hstep
  dsimp only [] at hstep
  rw [show ({ s with cache := s.cache } : Sys) = s from rfl] at hstep
  rw [tryBody_dl_no hnodl] at hstep
  rw [finishBody_ex_err_char hg hex] at hstep
  have hP : pipeline env s url e fd fe
      = ({ removeExisting s (extractTarget cf) with
            exs := (removeExisting s (extractTarget cf)).exs + 1
            fs := rollbackFS (removeExisting s (extractTarget cf)).fs
              { cf with extraction_path := some (extractTarget cf) } },
         Except.error er) := by
    rw [hstep]
  have hrm : (rollbackFS (removeExisting s (extractTarget cf)).fs
      { cf with extraction_path := some (extractTarget cf) }).existsPath cf.local_path
      = false :=
    rollbackFS_local _ _
  have hcache2 : ({ removeExisting s (extractTarget cf) with
        exs := (removeExisting s (extractTarget cf)).exs + 1
        fs := rollbackFS (removeExisting s (extractTarget cf)).fs
          { cf with extraction_path := some (extractTarget cf) } } : Sys).cache url
      = some cf := by
    show (removeExisting s (extractTarget cf)).cache url = some cf
    rw [removeExisting_cache]
    exact hrec
  have hnd2 : needsDownload env
      (rollbackFS (removeExisting s (extractTarget cf)).fs
        { cf with extraction_path := some (extractTarget cf) }) cf fd = true := by
    unfold needsDownload
    rw [hrm]
    rfl
  refine ⟨_, hP, hrm, hcache2, hnd2, ?_⟩
  rw [pipeline_dls]
  rw [lookupOrAdd_found hcache2]
  dsimp only []
  rw [hnd2]
  rfl

/-- Witness for c10_rollback_deletes_preexisting: extraction of an already
downloaded zip fails, the artifact file is deleted by the rollback, and
the next resolution downloads again. -/
theorem c10_rollback_deletes_preexisting_witness :
    ∃ s', pipeline exFailEnv c10Sys c10Url true false false
        = (s', Except.error Err.extraction)
      ∧ s'.fs.existsPath c10Rec.local_path = false
      ∧ s'.cache c10Url = some c10Rec
      ∧ needsDownload exFailEnv s'.fs c10Rec false = true
      ∧ ((pipeline exFailEnv s' c10Url true false false).1).dls = s'.dls + 1 :=
  c10_rollback_deletes_preexisting exFailEnv c10Sys c10Url true false false c10Rec
    Err.extraction rfl rfl (by decide) (by decide) rfl
